import Mathlib

/-!
# Verification of the kkangdae system monitor

Shallow embedding of `src/monitor/main.py` and `src/monitor/report.py`.

Modelling conventions:
* Python floats become `ℚ` (no rounding other than the explicit `round(_, 2)`
  in `summarize`, which is modelled as round-half-to-even at two decimals).
* Timestamps are modelled as integer seconds since the Unix epoch in UTC;
  `parse_timestamp_utc` is then the identity, and converting the displayed
  wall-clock time to the fixed secondary zone UTC+9 (Asia/Seoul, no DST)
  adds 32400 seconds.
* The external OS metrics provider (`psutil`) is modelled by passing the
  enumerated process list as an explicit argument; the external JSON codec
  (`json.dumps`/`json.loads`) is modelled as an explicit pair of functions
  constrained by its documented contract where a claim needs it.
* Python dictionaries keyed by insertion order become association lists.
* A Python function that can fall off its end without `return` yields
  `Option` `none` in the model, mirroring the implicit `None`.
-/

namespace Monitor

/-- One per-process entry as assembled by `get_top_processes`
(`{pid, name, cpu, mem}`). -/
structure ProcessSnapshot where
  pid : Int
  name : String
  cpu : ℚ
  mem : ℚ
  deriving DecidableEq, Repr

/-- One sample record as assembled by `collect_metrics`
(`{timestamp, cpu_percent, mem_percent, disk_percent, processes}`). -/
structure SampleRecord where
  timestamp : Int
  cpu_percent : ℚ
  mem_percent : ℚ
  disk_percent : ℚ
  processes : List ProcessSnapshot
  deriving DecidableEq, Repr

/-- Raw attribute dictionary of one process as yielded by
`psutil.process_iter(attrs=[...])`: any attribute may be unavailable
(`None`), which the code substitutes with defaults. -/
structure RawProcInfo where
  pid : Option Int
  name : Option String
  cpu_percent : Option ℚ
  memory_percent : Option ℚ
  deriving DecidableEq, Repr

/-- `{"pid": int(info.get("pid", 0)), "name": info.get("name") or "unknown",
"cpu": float(info.get("cpu_percent") or 0.0),
"mem": float(info.get("memory_percent") or 0.0)}` — Python `or` replaces
falsy values (`None`, the empty string, `0.0`) by the right operand; for the
numeric fields replacing a falsy `0.0` by `0.0` is the identity. -/
def normalizeProc (info : RawProcInfo) : ProcessSnapshot :=
  { pid := info.pid.getD 0
    name := match info.name with
      | none => "unknown"
      | some s => if s = "" then "unknown" else s
    cpu := info.cpu_percent.getD 0
    mem := info.memory_percent.getD 0 }

/-- Python `list.sort(key=..., reverse=True)`: stable sort, descending by the
key. `List.mergeSort` keeps the first element when the comparator holds, so
`key a ≥ key b` gives a stable descending order. -/
def sortByKeyDesc (key : ProcessSnapshot → ℚ) (l : List ProcessSnapshot) :
    List ProcessSnapshot :=
  l.mergeSort (fun a b => key b ≤ key a)

/-- `get_top_processes(n, by)` from `main.py`. The source misindents the
loop: `key = ...`, `procs.sort(...)` and `return procs[:n]` sit INSIDE the
`for p in psutil.process_iter(...)` body, so the function returns during the
first iteration, with `procs` holding only the first enumerated process; if
the enumeration is empty the function falls off its end and returns `None`.
The enumerated processes are passed explicitly (external provider). -/
def get_top_processes (n : ℕ) (by_ : String) (enumerated : List RawProcInfo) :
    Option (List ProcessSnapshot) :=
  match enumerated with
  | [] => none
  | p :: _ =>
    let procs := [normalizeProc p]
    let key : ProcessSnapshot → ℚ :=
      if by_.toLower = "cpu" then (·.cpu) else (·.mem)
    some ((sortByKeyDesc key procs).take n)

/-- `collect_metrics(top_n, top_by)`: assembles one record from the provider
readings. The instantaneous system percentages, the timestamp and the
enumerated process list are the provider inputs. The `processes` field is
`get_top_processes(...)`, which may be `None` (see above). -/
def collect_metrics (top_n : ℕ) (top_by : String) (ts : Int)
    (cpu mem disk : ℚ) (enumerated : List RawProcInfo) : SampleRecord :=
  { timestamp := ts
    cpu_percent := cpu
    mem_percent := mem
    disk_percent := disk
    processes := (get_top_processes top_n top_by enumerated).getD [] }

/-- The alert verdict computed inside `run` (main.py lines 69-78):
`alert = m["cpu_percent"] > cpu_thr or m["mem_percent"] > mem_thr or
m["disk_percent"] > disk_thr`. -/
def alertVerdict (m : SampleRecord) (cpu_thr mem_thr disk_thr : ℚ) : Bool :=
  decide (m.cpu_percent > cpu_thr) || decide (m.mem_percent > mem_thr)
    || decide (m.disk_percent > disk_thr)

/-- The collection loop of `run`: `end_ts = time.time() + duration;
while time.time() < end_ts: m = collect_metrics(...); append; ...; sleep`.
Successive `time.time()` readings are modelled by a clock sequence indexed
by call number, the per-iteration sample by a sequence of records, and the
loop by fuel-bounded recursion (the returned list holds the appended
records). `sleep` performs no clock reading of its own. -/
def runLoop (fuel : ℕ) (clock : ℕ → ℚ) (i : ℕ) (end_ts : ℚ)
    (samples : ℕ → SampleRecord) (acc : List SampleRecord) :
    List SampleRecord :=
  match fuel with
  | 0 => acc
  | fuel + 1 =>
    if clock i < end_ts then
      runLoop fuel clock (i + 1) end_ts samples (acc ++ [samples acc.length])
    else acc

/-- The records appended by one call of `run interval duration ...`:
`end_ts` is fixed from the first clock reading, then the loop checks the
clock before every sample. -/
def runRecords (fuel : ℕ) (clock : ℕ → ℚ) (duration : ℚ)
    (samples : ℕ → SampleRecord) : List SampleRecord :=
  runLoop fuel clock 1 (clock 0 + duration) samples []

/-- CLI argument values from `parse_args` (only those `main` reads). -/
structure Args where
  interval : Int
  duration : Int
  out_dir : String
  top_n : ℕ
  top_by : String
  deriving DecidableEq, Repr

/-- Config-file keys `main` looks up (`None` models an absent key). -/
structure Cfg where
  interval : Option Int
  duration : Option Int
  out_dir : Option String
  cpu_threshold : Option ℚ
  mem_threshold : Option ℚ
  disk_threshold : Option ℚ
  deriving DecidableEq, Repr

/-- The argument tuple `run` is invoked with. -/
structure RunCall where
  interval : Int
  duration : Int
  out_dir : String
  cpu_thr : ℚ
  mem_thr : ℚ
  disk_thr : ℚ
  top_n : ℕ
  top_by : String
  deriving DecidableEq, Repr

/-- The wiring in `main()`: it computes `interval = cfg.get("interval",
args.interval)` and so on, but then calls
`run(args.interval, args.duration, args.out_dir, top_n=args.top_n,
top_by=args.top_by)` — the config-derived locals are dead, and the three
threshold parameters are left at `run`'s defaults (85, 85, 90). -/
def mainWiring (cfg : Cfg) (args : Args) : RunCall :=
  let interval := cfg.interval.getD args.interval
  let duration := cfg.duration.getD args.duration
  let out_dir := cfg.out_dir.getD args.out_dir
  let cpu_thr := cfg.cpu_threshold.getD 85
  let mem_thr := cfg.mem_threshold.getD 85
  let disk_thr := cfg.disk_threshold.getD 90
  let _ := (interval, duration, out_dir, cpu_thr, mem_thr, disk_thr)
  { interval := args.interval
    duration := args.duration
    out_dir := args.out_dir
    cpu_thr := 85
    mem_thr := 85
    disk_thr := 90
    top_n := args.top_n
    top_by := args.top_by }

/-! ## report.py -/

/-- Python `max(l)` on a nonempty list: left fold of the binary max over the
first element. (`max([])` raises; `summarize` only calls it after the
emptiness guard, so the `[]` branch is unreachable there.) -/
def pymax (l : List ℚ) : ℚ :=
  match l with
  | [] => 0
  | x :: xs => xs.foldl max x

/-- `statistics.mean(l)`: the exact arithmetic mean (Python computes it
exactly over rational values before any float conversion; only called on
nonempty lists). -/
def pymean (l : List ℚ) : ℚ := l.sum / l.length

/-- Python `round(x)` to an integer: round-half-to-even (banker's
rounding). For a fractional part other than one half this is the nearest
integer; on an exact tie the even neighbour is chosen. -/
def pyroundInt (q : ℚ) : ℤ :=
  if Int.fract q = 1 / 2 then
    (if ⌊q⌋ % 2 = 0 then ⌊q⌋ else ⌊q⌋ + 1)
  else round q

/-- Python `round(x, 2)`: round-half-to-even at two decimal places. -/
def pyround2 (q : ℚ) : ℚ := (pyroundInt (q * 100) : ℚ) / 100

/-- The dictionary returned by `summarize` (report.py). `_utc` fields hold
the instant, `_kst` fields the UTC+9 wall-clock display of that same
instant (+32400 seconds). -/
structure Summary where
  count : ℕ
  cpu_avg : ℚ
  cpu_max : ℚ
  cpu_max_time_utc : Int
  cpu_max_time_kst : Int
  mem_avg : ℚ
  mem_max : ℚ
  mem_max_time_utc : Int
  mem_max_time_kst : Int
  disk_avg : ℚ
  disk_max : ℚ
  disk_max_time_utc : Int
  disk_max_time_kst : Int
  deriving DecidableEq, Repr

/-- The dictionary built by `summarize` (report.py) from a non-empty row
list (`rows = list(load_jsonl(path))` is factored out as `load_jsonl`
below): the averages are `round(mean(_), 2)`, the maxima are `max(_)`, and
each maximum's timestamp is `ts_utc[values.index(max_value)]` —
`list.index` returns the FIRST position of the value. -/
def summaryOf (rows : List SampleRecord) : Summary :=
    let cpu := rows.map (·.cpu_percent)
    let mem := rows.map (·.mem_percent)
    let disk := rows.map (·.disk_percent)
    let ts_utc := rows.map (·.timestamp)
    let cpu_max := pymax cpu
    let mem_max := pymax mem
    let disk_max := pymax disk
    let cpu_max_t_utc := ts_utc.getD (cpu.indexOf cpu_max) 0
    let mem_max_t_utc := ts_utc.getD (mem.indexOf mem_max) 0
    let disk_max_t_utc := ts_utc.getD (disk.indexOf disk_max) 0
    { count := rows.length
      cpu_avg := pyround2 (pymean cpu)
      cpu_max := cpu_max
      cpu_max_time_utc := cpu_max_t_utc
      cpu_max_time_kst := cpu_max_t_utc + 32400
      mem_avg := pyround2 (pymean mem)
      mem_max := mem_max
      mem_max_time_utc := mem_max_t_utc
      mem_max_time_kst := mem_max_t_utc + 32400
      disk_avg := pyround2 (pymean disk)
      disk_max := disk_max
      disk_max_time_utc := disk_max_t_utc
      disk_max_time_kst := disk_max_t_utc + 32400 }

/-- `summarize` itself: the empty marker on no rows, else the summary. -/
def summarize (rows : List SampleRecord) : Option Summary :=
  if rows = [] then none else some (summaryOf rows)

/-- One bucket of the `data` dictionary built inside `summarize_processes`:
`{"cpu": [...], "mem": [...], "count": n}`. -/
structure ProcEntry where
  cpu : List ℚ
  mem : List ℚ
  count : ℕ
  deriving DecidableEq, Repr

/-- Appending one snapshot to a bucket: `entry["cpu"].append(...)`,
`entry["mem"].append(...)`, `entry["count"] += 1`. -/
def updateEntry (p : ProcessSnapshot) (e : ProcEntry) : ProcEntry :=
  { cpu := e.cpu ++ [p.cpu], mem := e.mem ++ [p.mem], count := e.count + 1 }

/-- `data.setdefault(name, {...})` followed by the three updates, on the
insertion-ordered association list modelling the dict. -/
def updateAssoc (d : List (String × ProcEntry)) (name : String)
    (p : ProcessSnapshot) : List (String × ProcEntry) :=
  match d with
  | [] => [(name, updateEntry p ⟨[], [], 0⟩)]
  | (k, e) :: rest =>
    if k = name then (k, updateEntry p e) :: rest
    else (k, e) :: updateAssoc rest name p

/-- The `data` dictionary as accumulated by the loop body of
`summarize_processes`: every snapshot of every record, keyed by
`p.get("name") or "unknown"`. -/
def summarizeProcessesData (rows : List SampleRecord) :
    List (String × ProcEntry) :=
  rows.foldl
    (fun d row =>
      row.processes.foldl
        (fun d p =>
          updateAssoc d (if p.name = "" then "unknown" else p.name) p)
        d)
    []

/-- `summarize_processes` from report.py: the body builds `data` but the
function has NO `return` statement, so it always falls off its end and
returns `None` — the accumulated dictionary is discarded. -/
def summarize_processes (rows : List SampleRecord) :
    Option (List (String × ProcEntry)) :=
  let data := summarizeProcessesData rows
  let _ := data
  none

/-! ## The log file: `run`'s append and `load_jsonl`

The file is modelled as its character content (`List Char`); the JSON codec
is the Python standard library, passed in as `dumps`/`loads` functions and
constrained by its documented contract in the theorems that need it. -/

/-- Python text-file line iteration (`for line in f`): lines keep their
terminating newline; a final unterminated chunk is yielded as-is. `acc`
holds the current line's characters in reverse. -/
def pyLinesAux (acc : List Char) : List Char → List (List Char)
  | [] => if acc = [] then [] else [acc.reverse]
  | c :: rest =>
    if c = '\n' then (acc.reverse ++ ['\n']) :: pyLinesAux [] rest
    else pyLinesAux (c :: acc) rest

/-- The lines of a file, as Python's file iteration yields them. -/
def pyLines (file : List Char) : List (List Char) := pyLinesAux [] file

/-- `line.strip()` is empty: every character is whitespace. -/
def isBlankLine (l : List Char) : Bool := l.all (·.isWhitespace)

/-- `load_jsonl` from report.py: `for line in f: if line.strip(): yield
json.loads(line)` — one parsed record per non-blank line in file order; a
line `json.loads` rejects raises, aborting the whole read (consumers force
the generator with `list(...)`). `loads` is the external JSON decoder; an
`Except.error` models the raised `JSONDecodeError` (the `ParseFailure`),
carrying the offending line. This folds the generator over a line list. -/
def loadLines (loads : List Char → Except (List Char) SampleRecord) :
    List (List Char) → Except (List Char) (List SampleRecord)
  | [] => .ok []
  | l :: ls =>
    if isBlankLine l then loadLines loads ls
    else
      match loads l with
      | .error e => .error e
      | .ok r =>
        match loadLines loads ls with
        | .error e => .error e
        | .ok rs => .ok (r :: rs)

/-- `load_jsonl` applied to a whole file and forced into a list. -/
def load_jsonl (loads : List Char → Except (List Char) SampleRecord)
    (file : List Char) : Except (List Char) (List SampleRecord) :=
  loadLines loads (pyLines file)

/-- The appends performed by `run`'s loop: for each record, open in append
mode and write `json.dumps(m) + "\n"` (`dumps` is the external JSON
encoder). Returns the file content after appending every record. -/
def appendRecords (dumps : SampleRecord → List Char) (file : List Char)
    (rs : List SampleRecord) : List Char :=
  rs.foldl (fun f r => f ++ dumps r ++ ['\n']) file

/-- Spec-side characterisation for C6: `vmax` is the maximum of `vals`,
attained first at an index `i` whose entry in `times` is `tmax`, every
earlier value being strictly smaller (first occurrence wins ties). -/
def FirstMaxWithTime (vals : List ℚ) (times : List Int) (vmax : ℚ)
    (tmax : Int) : Prop :=
  (∀ v ∈ vals, v ≤ vmax) ∧
  ∃ i : ℕ, ∃ hv : i < vals.length,
    vals.get ⟨i, hv⟩ = vmax ∧
    (∃ ht : i < times.length, times.get ⟨i, ht⟩ = tmax) ∧
    ∀ j (hj : j < i), vals.get ⟨j, Nat.lt_trans hj hv⟩ < vmax

/-- The non-blank lines of a file, in file order (spec side of C9). -/
def nonblankLines (file : List Char) : List (List Char) :=
  (pyLines file).filter (fun l => !isBlankLine l)

/-! Concrete records and a concrete line codec used to instantiate the
codec-parameterised round-trip and reader theorems. -/

/-- A concrete sample record (no processes). -/
def wrec1 : SampleRecord := ⟨0, 1, 2, 3, []⟩

/-- A concrete sample record (one process snapshot). -/
def wrec2 : SampleRecord := ⟨60, 4, 5, 6, [⟨7, "p", 8, 9⟩]⟩

/-- A concrete single-character encoder distinguishing `wrec1`/`wrec2`. -/
def wdumps (r : SampleRecord) : List Char :=
  if r = wrec1 then ['a'] else ['b']

/-- The matching decoder (tolerating the trailing newline, as `json.loads`
does); any other line is rejected, modelling `JSONDecodeError`. -/
def wloads (l : List Char) : Except (List Char) SampleRecord :=
  if l = ['a', '\n'] then .ok wrec1
  else if l = ['b', '\n'] then .ok wrec2
  else .error l

/-! ## Theorems -/

/-- C1: the alert verdict of a collection tick is `true` iff at least one
of the sample's cpu/mem/disk percentages STRICTLY exceeds its threshold;
in particular a sample sitting exactly on every threshold never alerts. -/
theorem alert_iff_strictly_exceeds (m : SampleRecord)
    (cpu_thr mem_thr disk_thr : ℚ) :
    (alertVerdict m cpu_thr mem_thr disk_thr = true ↔
      (m.cpu_percent > cpu_thr ∨ m.mem_percent > mem_thr ∨
        m.disk_percent > disk_thr)) ∧
    (m.cpu_percent = cpu_thr → m.mem_percent = mem_thr →
      m.disk_percent = disk_thr →
      alertVerdict m cpu_thr mem_thr disk_thr = false) := by
  refine ⟨?_, ?_⟩
  · simp [alertVerdict, or_assoc]
  · intro h1 h2 h3
    simp [alertVerdict, h1, h2, h3]

/-- C1 witness: the spec's end-to-end example — cpu 99 / mem 50 / disk 10
against thresholds 85 / 85 / 90 alerts (cpu breach only). -/
theorem alert_iff_strictly_exceeds_witness :
    alertVerdict ⟨0, 99, 50, 10, []⟩ 85 85 90 = true :=
  (alert_iff_strictly_exceeds ⟨0, 99, 50, 10, []⟩ 85 85 90).1.mpr
    (Or.inl (by norm_num))

/-- C5: with `duration_seconds = 0` the loop's end condition (a clock
reading `< clock 0 + 0`) already fails at the first check, which happens
BEFORE the first sample, so no iteration runs and no record is appended —
for any fuel, any monotone pair of consecutive clock readings and any
sample stream. -/
theorem runRecords_zero_duration (fuel : ℕ) (clock : ℕ → ℚ)
    (samples : ℕ → SampleRecord) (h : clock 0 ≤ clock 1) :
    runRecords fuel clock 0 samples = [] := by
  cases fuel with
  | zero => rfl
  | succ n =>
    have hlt : ¬clock 1 < clock 0 + 0 := by simpa using not_lt.mpr h
    unfold runRecords runLoop
    rw [if_neg hlt]

/-- C5 witness: a concrete strictly increasing clock, fuel 3. -/
theorem runRecords_zero_duration_witness :
    (fun n : ℕ => (n : ℚ)) 0 ≤ (fun n : ℕ => (n : ℚ)) 1 ∧
      runRecords 3 (fun n : ℕ => (n : ℚ)) 0 (fun _ => ⟨0, 0, 0, 0, []⟩)
        = [] :=
  ⟨by norm_num,
    runRecords_zero_duration 3 (fun n : ℕ => (n : ℚ))
      (fun _ => ⟨0, 0, 0, 0, []⟩) (by norm_num)⟩

/-- C2 (code bug): `summarize_processes` never returns its accumulated
dictionary — it has no `return` statement, so on the spec's own example
(one record with an "x" snapshot at cpu 10, one with an "x" snapshot at
cpu 30) it yields `None`, not a mapping with `x.cpu_avg == 20.0`; the
second conjunct shows the buckets the loop builds and then discards
(cpu values [10, 30], count 2, no average ever computed). -/
theorem summarize_processes_returns_none :
    summarize_processes
        [⟨0, 0, 0, 0, [⟨1, "x", 10, 0⟩]⟩, ⟨1, 0, 0, 0, [⟨2, "x", 30, 0⟩]⟩]
      = none ∧
    summarizeProcessesData
        [⟨0, 0, 0, 0, [⟨1, "x", 10, 0⟩]⟩, ⟨1, 0, 0, 0, [⟨2, "x", 30, 0⟩]⟩]
      = [("x", ⟨[10, 30], [0, 0], 2⟩)] := by
  refine ⟨rfl, ?_⟩
  decide

/-- C3 (code bug): the sort/truncate/return of `get_top_processes` are
misindented into the enumeration loop, so the function returns during the
first iteration: given two enumerated processes (the second with the higher
cpu) and `top_n = 5`, it returns only the first process instead of both
sorted descending. -/
theorem get_top_processes_first_iteration_only :
    get_top_processes 5 "cpu"
        [⟨some 1, some "a", some 1, some 1⟩,
         ⟨some 2, some "b", some 2, some 2⟩]
      = some [⟨1, "a", 1, 1⟩] := by
  simp [get_top_processes, sortByKeyDesc, normalizeProc,
    List.mergeSort_singleton]

/-- C4 (code bug): `main` computes the config-derived values but then calls
`run(args.interval, args.duration, args.out_dir, top_n=..., top_by=...)`,
so with a config supplying interval 99, duration 77, out_dir "cfgdir" and
thresholds 50/60/70, the run still receives the CLI values 5/30/"output"
and `run`'s own default thresholds 85/85/90. -/
theorem mainWiring_ignores_config :
    mainWiring ⟨some 99, some 77, some "cfgdir", some 50, some 60, some 70⟩
        ⟨5, 30, "output", 5, "cpu"⟩
      = ⟨5, 30, "output", 85, 85, 90, 5, "cpu"⟩ ∧
    (mainWiring ⟨some 99, some 77, some "cfgdir", some 50, some 60, some 70⟩
        ⟨5, 30, "output", 5, "cpu"⟩).interval ≠ 99 ∧
    (mainWiring ⟨some 99, some 77, some "cfgdir", some 50, some 60, some 70⟩
        ⟨5, 30, "output", 5, "cpu"⟩).cpu_thr ≠ 50 := by
  refine ⟨rfl, by decide, by decide⟩

/-- C8: `summarize` on an empty record list returns the explicit empty
marker `{}` (modelled `none`) — not a crash, and in particular not a
zero-filled `Summary` that downstream code could mistake for data. -/
theorem summarize_empty_marker : summarize ([] : List SampleRecord) = none :=
  rfl

lemma le_foldl_max (xs : List ℚ) (a : ℚ) : a ≤ xs.foldl max a := by
  induction xs generalizing a with
  | nil => simp
  | cons x xs ih => exact le_trans (le_max_left a x) (ih (max a x))

lemma mem_le_foldl_max (xs : List ℚ) (a : ℚ) :
    ∀ y ∈ xs, y ≤ xs.foldl max a := by
  induction xs generalizing a with
  | nil => simp
  | cons x xs ih =>
    intro y hy
    rcases List.mem_cons.mp hy with rfl | hy
    · exact le_trans (le_max_right a y) (le_foldl_max xs (max a y))
    · exact ih (max a x) y hy

lemma foldl_max_mem (xs : List ℚ) (a : ℚ) :
    xs.foldl max a = a ∨ xs.foldl max a ∈ xs := by
  induction xs generalizing a with
  | nil => simp
  | cons x xs ih =>
    rcases ih (max a x) with h | h
    · rcases max_choice a x with hm | hm
      · left
        rw [List.foldl_cons, h, hm]
      · right
        rw [List.foldl_cons, h, hm]
        exact List.mem_cons_self x xs
    · exact Or.inr (List.mem_cons_of_mem x h)

lemma pymax_is_ub (l : List ℚ) : ∀ y ∈ l, y ≤ pymax l := by
  intro y hy
  match l, hy with
  | x :: xs, hy =>
    rcases List.mem_cons.mp hy with rfl | hy
    · exact le_foldl_max xs y
    · exact mem_le_foldl_max xs x y hy

lemma pymax_mem (l : List ℚ) (h : l ≠ []) : pymax l ∈ l := by
  match l with
  | x :: xs =>
    rcases foldl_max_mem xs x with hm | hm
    · rw [pymax, hm]; exact List.mem_cons_self x xs
    · exact List.mem_cons_of_mem x hm

lemma get_ne_of_lt_indexOf {α : Type} [DecidableEq α] {l : List α} {a : α}
    {j : ℕ} (hj : j < l.indexOf a) (hjl : j < l.length) :
    l.get ⟨j, hjl⟩ ≠ a := by
  induction l generalizing j with
  | nil => simp at hjl
  | cons x xs ih =>
    by_cases hx : x = a
    · subst hx
      simp [List.indexOf_cons_self] at hj
    · cases j with
      | zero => simpa using hx
      | succ j =>
        rw [List.indexOf_cons_ne _ (by simpa using hx)] at hj
        exact ih (Nat.lt_of_succ_lt_succ hj) (Nat.lt_of_succ_lt_succ hjl)

lemma getD_of_lt {α : Type} [Inhabited α] (l : List α) (n : ℕ) (d : α)
    (h : n < l.length) : l.getD n d = l.get ⟨n, h⟩ := by
  rw [List.getD_eq_getElem l d h]
  simp

lemma firstMaxWithTime_of_maps (rows : List SampleRecord)
    (f : SampleRecord → ℚ) (h : rows ≠ []) :
    FirstMaxWithTime (rows.map f) (rows.map (·.timestamp))
      (pymax (rows.map f))
      ((rows.map (·.timestamp)).getD
        ((rows.map f).indexOf (pymax (rows.map f))) 0) := by
  have hmapne : rows.map f ≠ [] := by
    simpa using h
  have hmem : pymax (rows.map f) ∈ rows.map f := pymax_mem _ hmapne
  have hidx : (rows.map f).indexOf (pymax (rows.map f)) <
      (rows.map f).length := List.indexOf_lt_length.2 hmem
  have hidx2 : (rows.map f).indexOf (pymax (rows.map f)) <
      (rows.map (·.timestamp)).length := by
    simpa using (by simpa using hidx : _ < rows.length)
  refine ⟨pymax_is_ub _, (rows.map f).indexOf (pymax (rows.map f)), hidx,
    List.indexOf_get hidx, ⟨hidx2, (getD_of_lt _ _ _ hidx2).symm⟩, ?_⟩
  intro j hj
  have hne := get_ne_of_lt_indexOf hj (Nat.lt_trans hj hidx)
  have hle := pymax_is_ub (rows.map f)
    ((rows.map f).get ⟨j, Nat.lt_trans hj hidx⟩) (List.get_mem _ _ _)
  exact lt_of_le_of_ne hle hne

/-- C6: for a non-empty record list `summarize` reports, per metric, a
maximum that bounds every record's value and is attained first at an index
whose timestamp is the reported `_max_time_utc` (earlier records are
strictly below it, so ties break to the first occurrence), with the `_kst`
display of that instant exactly 9 hours (32400 s) ahead. -/
theorem summarize_max_first_occurrence (rows : List SampleRecord)
    (h : rows ≠ []) :
    ∃ s, summarize rows = some s ∧
      (FirstMaxWithTime (rows.map (·.cpu_percent)) (rows.map (·.timestamp))
          s.cpu_max s.cpu_max_time_utc ∧
        s.cpu_max_time_kst = s.cpu_max_time_utc + 32400) ∧
      (FirstMaxWithTime (rows.map (·.mem_percent)) (rows.map (·.timestamp))
          s.mem_max s.mem_max_time_utc ∧
        s.mem_max_time_kst = s.mem_max_time_utc + 32400) ∧
      (FirstMaxWithTime (rows.map (·.disk_percent)) (rows.map (·.timestamp))
          s.disk_max s.disk_max_time_utc ∧
        s.disk_max_time_kst = s.disk_max_time_utc + 32400) := by
  have hs : summarize rows = some (summaryOf rows) := by
    unfold summarize
    rw [if_neg h]
  exact ⟨summaryOf rows, hs, ⟨firstMaxWithTime_of_maps rows _ h, rfl⟩,
    ⟨firstMaxWithTime_of_maps rows _ h, rfl⟩,
    ⟨firstMaxWithTime_of_maps rows _ h, rfl⟩⟩

/-- C6 witness: the spec's example — cpu values `[10, 95, 95, 20]` at
times `t0..t3`; the theorem applies, pinning `cpu_max` to 95 at `t1`. -/
theorem summarize_max_first_occurrence_witness :
    ([⟨0, 10, 1, 5, []⟩, ⟨1, 95, 2, 5, []⟩, ⟨2, 95, 3, 5, []⟩,
        ⟨3, 20, 4, 5, []⟩] : List SampleRecord) ≠ [] ∧
      ∃ s, summarize
          [⟨0, 10, 1, 5, []⟩, ⟨1, 95, 2, 5, []⟩, ⟨2, 95, 3, 5, []⟩,
            ⟨3, 20, 4, 5, []⟩] = some s ∧
        (FirstMaxWithTime [10, 95, 95, 20] [0, 1, 2, 3]
            s.cpu_max s.cpu_max_time_utc ∧
          s.cpu_max_time_kst = s.cpu_max_time_utc + 32400) ∧
        (FirstMaxWithTime [1, 2, 3, 4] [0, 1, 2, 3]
            s.mem_max s.mem_max_time_utc ∧
          s.mem_max_time_kst = s.mem_max_time_utc + 32400) ∧
        (FirstMaxWithTime [5, 5, 5, 5] [0, 1, 2, 3]
            s.disk_max s.disk_max_time_utc ∧
          s.disk_max_time_kst = s.disk_max_time_utc + 32400) :=
  ⟨List.cons_ne_nil _ _,
    summarize_max_first_occurrence
      [⟨0, 10, 1, 5, []⟩, ⟨1, 95, 2, 5, []⟩, ⟨2, 95, 3, 5, []⟩,
        ⟨3, 20, 4, 5, []⟩] (List.cons_ne_nil _ _)⟩

lemma abs_pyroundInt_sub_le (q : ℚ) : |(pyroundInt q : ℚ) - q| ≤ 1 / 2 := by
  unfold pyroundInt
  by_cases hf : Int.fract q = 1 / 2
  · rw [if_pos hf]
    set n := ⌊q⌋ with hn
    have hq : q = (n : ℚ) + 1 / 2 := by
      have hsf : q - (n : ℚ) = Int.fract q := by
        rw [hn]
        exact Int.self_sub_floor q
      rw [hf] at hsf
      linarith
    by_cases he : n % 2 = 0
    · rw [if_pos he]
      have hd : (n : ℚ) - q = -(1 / 2) := by rw [hq]; ring
      rw [hd, abs_neg, abs_of_nonneg (by norm_num : (0 : ℚ) ≤ 1 / 2)]
    · rw [if_neg he]
      have hd : ((n + 1 : ℤ) : ℚ) - q = 1 / 2 := by push_cast; rw [hq]; ring
      rw [hd, abs_of_nonneg (by norm_num : (0 : ℚ) ≤ 1 / 2)]
  · rw [if_neg hf, abs_sub_comm]
    exact abs_sub_round q

lemma pyround2_den (q : ℚ) : (100 * pyround2 q).den = 1 := by
  unfold pyround2
  have hc : (100 : ℚ) * ((pyroundInt (q * 100) : ℚ) / 100)
      = (pyroundInt (q * 100) : ℚ) := by
    field_simp
  rw [hc, Rat.den_intCast]

lemma abs_pyround2_sub_le (q : ℚ) : |pyround2 q - q| ≤ 1 / 200 := by
  unfold pyround2
  have h := abs_pyroundInt_sub_le (q * 100)
  have hd : (pyroundInt (q * 100) : ℚ) / 100 - q
      = ((pyroundInt (q * 100) : ℚ) - q * 100) / 100 := by ring
  rw [hd, abs_div]
  rw [show |(100 : ℚ)| = 100 by norm_num]
  linarith

/-- C10: for a non-empty record list, every `_avg` field of `summarize` is
the arithmetic mean rounded to two decimal places — a multiple of 1/100
within 1/200 of the exact mean — while every `_max` field is the unrounded
maximum, an actual value occurring in the data. -/
theorem summarize_avg_rounded_max_exact (rows : List SampleRecord)
    (h : rows ≠ []) :
    ∃ s, summarize rows = some s ∧
      (s.cpu_avg = pyround2 (pymean (rows.map (·.cpu_percent))) ∧
        (100 * s.cpu_avg).den = 1 ∧
        |s.cpu_avg - pymean (rows.map (·.cpu_percent))| ≤ 1 / 200 ∧
        s.cpu_max = pymax (rows.map (·.cpu_percent)) ∧
        s.cpu_max ∈ rows.map (·.cpu_percent)) ∧
      (s.mem_avg = pyround2 (pymean (rows.map (·.mem_percent))) ∧
        (100 * s.mem_avg).den = 1 ∧
        |s.mem_avg - pymean (rows.map (·.mem_percent))| ≤ 1 / 200 ∧
        s.mem_max = pymax (rows.map (·.mem_percent)) ∧
        s.mem_max ∈ rows.map (·.mem_percent)) ∧
      (s.disk_avg = pyround2 (pymean (rows.map (·.disk_percent))) ∧
        (100 * s.disk_avg).den = 1 ∧
        |s.disk_avg - pymean (rows.map (·.disk_percent))| ≤ 1 / 200 ∧
        s.disk_max = pymax (rows.map (·.disk_percent)) ∧
        s.disk_max ∈ rows.map (·.disk_percent)) := by
  have hs : summarize rows = some (summaryOf rows) := by
    unfold summarize
    rw [if_neg h]
  have hne : ∀ f : SampleRecord → ℚ, rows.map f ≠ [] := fun f => by
    simpa using h
  exact ⟨summaryOf rows, hs,
    ⟨rfl, pyround2_den _, abs_pyround2_sub_le _, rfl, pymax_mem _ (hne _)⟩,
    ⟨rfl, pyround2_den _, abs_pyround2_sub_le _, rfl, pymax_mem _ (hne _)⟩,
    ⟨rfl, pyround2_den _, abs_pyround2_sub_le _, rfl, pymax_mem _ (hne _)⟩⟩

/-- C10 witness: three records whose metric means are 1/3 (not a
two-decimal value), so the reported averages must be the rounded 33/100. -/
theorem summarize_avg_rounded_max_exact_witness :
    ([⟨0, 0, 0, 0, []⟩, ⟨1, 0, 0, 0, []⟩, ⟨2, 1, 1, 1, []⟩] :
        List SampleRecord) ≠ [] ∧
      ∃ s, summarize [⟨0, 0, 0, 0, []⟩, ⟨1, 0, 0, 0, []⟩, ⟨2, 1, 1, 1, []⟩]
          = some s ∧
        (s.cpu_avg = pyround2 (pymean [0, 0, 1]) ∧
          (100 * s.cpu_avg).den = 1 ∧
          |s.cpu_avg - pymean [0, 0, 1]| ≤ 1 / 200 ∧
          s.cpu_max = pymax [0, 0, 1] ∧ s.cpu_max ∈ ([0, 0, 1] : List ℚ)) ∧
        (s.mem_avg = pyround2 (pymean [0, 0, 1]) ∧
          (100 * s.mem_avg).den = 1 ∧
          |s.mem_avg - pymean [0, 0, 1]| ≤ 1 / 200 ∧
          s.mem_max = pymax [0, 0, 1] ∧ s.mem_max ∈ ([0, 0, 1] : List ℚ)) ∧
        (s.disk_avg = pyround2 (pymean [0, 0, 1]) ∧
          (100 * s.disk_avg).den = 1 ∧
          |s.disk_avg - pymean [0, 0, 1]| ≤ 1 / 200 ∧
          s.disk_max = pymax [0, 0, 1] ∧
          s.disk_max ∈ ([0, 0, 1] : List ℚ)) :=
  ⟨List.cons_ne_nil _ _,
    summarize_avg_rounded_max_exact
      [⟨0, 0, 0, 0, []⟩, ⟨1, 0, 0, 0, []⟩, ⟨2, 1, 1, 1, []⟩]
      (List.cons_ne_nil _ _)⟩

lemma pyLinesAux_no_newline (line : List Char) :
    ∀ (acc rest : List Char), Char.ofNat 10 ∉ line →
      pyLinesAux acc (line ++ Char.ofNat 10 :: rest)
        = (acc.reverse ++ line ++ [Char.ofNat 10]) :: pyLinesAux [] rest := by
  induction line with
  | nil =>
    intro acc rest _
    simp [pyLinesAux]
  | cons c cs ih =>
    intro acc rest h
    have hc : ¬(c = Char.ofNat 10) := fun hEq =>
      h (hEq ▸ List.mem_cons_self c cs)
    have h2 : Char.ofNat 10 ∉ cs := fun hm => h (List.mem_cons_of_mem c hm)
    rw [List.cons_append]
    show pyLinesAux acc (c :: (cs ++ Char.ofNat 10 :: rest)) = _
    rw [pyLinesAux, if_neg hc, ih (c :: acc) rest h2]
    simp

lemma appendRecords_join (dumps : SampleRecord → List Char)
    (rs : List SampleRecord) :
    ∀ f, appendRecords dumps f rs
      = f ++ (rs.map (fun r => dumps r ++ ['\n'])).flatten := by
  induction rs with
  | nil =>
    intro f
    simp [appendRecords]
  | cons r rs ih =>
    intro f
    show appendRecords dumps (f ++ dumps r ++ ['\n']) rs = _
    rw [ih]
    simp

lemma pyLines_dump_lines (dumps : SampleRecord → List Char)
    (rs : List SampleRecord) (h : ∀ r ∈ rs, '\n' ∉ dumps r) :
    pyLines ((rs.map (fun r => dumps r ++ ['\n'])).flatten)
      = rs.map (fun r => dumps r ++ ['\n']) := by
  induction rs with
  | nil => rfl
  | cons r rs ih =>
    have h1 : Char.ofNat 10 ∉ dumps r := h r (List.mem_cons_self r rs)
    have hrest := ih (fun x hx => h x (List.mem_cons_of_mem r hx))
    unfold pyLines at hrest ⊢
    rw [List.map_cons, List.flatten_cons,
      show (dumps r ++ ['\n']) ++ (rs.map (fun x => dumps x ++ ['\n'])).flatten
          = dumps r ++ '\n' :: (rs.map (fun x => dumps x ++ ['\n'])).flatten
        from by simp,
      pyLinesAux_no_newline (dumps r) [] _ h1, hrest]
    simp

lemma loadLines_ok_of_roundtrip
    (dumps : SampleRecord → List Char)
    (loads : List Char → Except (List Char) SampleRecord)
    (rs : List SampleRecord)
    (h : ∀ r ∈ rs, isBlankLine (dumps r ++ ['\n']) = false ∧
      loads (dumps r ++ ['\n']) = .ok r) :
    loadLines loads (rs.map (fun r => dumps r ++ ['\n'])) = .ok rs := by
  induction rs with
  | nil => rfl
  | cons r rs ih =>
    obtain ⟨hb, hl⟩ := h r (List.mem_cons_self r rs)
    have hrest := ih (fun x hx => h x (List.mem_cons_of_mem r hx))
    rw [List.map_cons]
    show loadLines loads ((dumps r ++ ['\n']) :: _) = _
    rw [loadLines, hb]
    simp only [Bool.false_eq_true, if_false]
    rw [hl, hrest]

/-- C7: writing N sample records through the store (one encoded line plus a
newline appended per record) and reading the file back through
`load_jsonl` yields exactly those N records, in order — for any encoder /
decoder pair meeting the JSON codec's contract on those records (the
encoded line contains no newline, is not blank, and decodes back to the
record with the trailing newline tolerated). -/
theorem store_reader_roundtrip (dumps : SampleRecord → List Char)
    (loads : List Char → Except (List Char) SampleRecord)
    (rs : List SampleRecord)
    (h : ∀ r ∈ rs, '\n' ∉ dumps r ∧
      isBlankLine (dumps r ++ ['\n']) = false ∧
      loads (dumps r ++ ['\n']) = .ok r) :
    load_jsonl loads (appendRecords dumps [] rs) = .ok rs := by
  have h1 : appendRecords dumps [] rs
      = (rs.map (fun r => dumps r ++ ['\n'])).flatten := by
    simpa using appendRecords_join dumps rs []
  unfold load_jsonl
  rw [h1, pyLines_dump_lines dumps rs (fun r hr => (h r hr).1)]
  exact loadLines_ok_of_roundtrip dumps loads rs
    (fun r hr => ⟨(h r hr).2.1, (h r hr).2.2⟩)

/-- C7 witness: two concrete records through the concrete codec
`wdumps`/`wloads`. -/
theorem store_reader_roundtrip_witness :
    load_jsonl wloads (appendRecords wdumps [] [wrec1, wrec2])
      = .ok [wrec1, wrec2] :=
  store_reader_roundtrip wdumps wloads [wrec1, wrec2] (by
    intro r hr
    rcases List.mem_cons.mp hr with rfl | hr
    · exact ⟨by decide, by decide, rfl⟩
    · rcases List.mem_cons.mp hr with rfl | hr
      · exact ⟨by decide, by decide, rfl⟩
      · simp at hr)

lemma loadLines_filter_blank
    (loads : List Char → Except (List Char) SampleRecord)
    (ls : List (List Char)) :
    loadLines loads ls
      = loadLines loads (ls.filter (fun l => !isBlankLine l)) := by
  induction ls with
  | nil => rfl
  | cons l ls ih =>
    by_cases hb : isBlankLine l
    · rw [show loadLines loads (l :: ls) = loadLines loads ls from by
        rw [loadLines, if_pos hb], List.filter_cons]
      simp only [hb, Bool.not_true, if_false]
      exact ih
    · rw [List.filter_cons]
      simp only [hb, Bool.not_false, if_true]
      rw [loadLines, loadLines, if_neg hb, if_neg hb]
      cases hl : loads l with
      | error e => rfl
      | ok r => rw [ih]

lemma loadLines_ok_pointwise
    (loads : List Char → Except (List Char) SampleRecord)
    (ls : List (List Char)) (hnb : ∀ l ∈ ls, isBlankLine l = false)
    (hok : ∀ l ∈ ls, ∃ r, loads l = .ok r) :
    ∃ rs, loadLines loads ls = .ok rs ∧ rs.length = ls.length ∧
      ∀ (i : ℕ) (hi : i < ls.length) (hr : i < rs.length),
        loads (ls.get ⟨i, hi⟩) = .ok (rs.get ⟨i, hr⟩) := by
  induction ls with
  | nil =>
    exact ⟨[], rfl, rfl, fun i hi _ => absurd hi (by simp)⟩
  | cons l ls ih =>
    obtain ⟨r, hrl⟩ := hok l (List.mem_cons_self l ls)
    obtain ⟨rs, hls, hlen, hpt⟩ :=
      ih (fun x hx => hnb x (List.mem_cons_of_mem l hx))
        (fun x hx => hok x (List.mem_cons_of_mem l hx))
    refine ⟨r :: rs, ?_, by simp [hlen], ?_⟩
    · rw [loadLines, if_neg (by simp [hnb l (List.mem_cons_self l ls)]),
        hrl, hls]
    · intro i hi hr
      cases i with
      | zero => simpa using hrl
      | succ i =>
        simpa using hpt i (by simpa using hi) (by simpa using hr)

lemma loadLines_error_at
    (loads : List Char → Except (List Char) SampleRecord)
    (ls : List (List Char)) (hnb : ∀ l ∈ ls, isBlankLine l = false) :
    ∀ (i : ℕ) (hi : i < ls.length) (e : List Char),
      (∀ j (hj : j < i), ∃ r, loads (ls.get ⟨j, Nat.lt_trans hj hi⟩) = .ok r) →
      loads (ls.get ⟨i, hi⟩) = .error e →
      loadLines loads ls = .error e := by
  induction ls with
  | nil =>
    intro i hi
    simp at hi
  | cons l ls ih =>
    intro i hi e hprev herr
    cases i with
    | zero =>
      have hl : loads l = .error e := by simpa using herr
      rw [loadLines, if_neg (by simp [hnb l (List.mem_cons_self l ls)]), hl]
    | succ i =>
      obtain ⟨r, hr⟩ := hprev 0 (Nat.succ_pos i)
      have hr' : loads l = .ok r := by simpa using hr
      have htail := ih (fun x hx => hnb x (List.mem_cons_of_mem l hx)) i
        (by simpa using hi) e
        (fun j hj => by simpa using hprev (j + 1) (by omega))
        (by simpa using herr)
      rw [loadLines, if_neg (by simp [hnb l (List.mem_cons_self l ls)]),
        hr', htail]

/-- C9: the record reader yields exactly one record per non-blank line in
file order — if every non-blank line parses, the read succeeds with a list
of the same length whose i-th record is the parse of the i-th non-blank
line — and if some non-blank line is malformed while all earlier ones
parse, the whole read fails with the `ParseFailure` of that line (no
partial result); both facts hold uniformly for every file. -/
theorem load_jsonl_line_policy
    (loads : List Char → Except (List Char) SampleRecord)
    (file : List Char) :
    ((∀ l ∈ nonblankLines file, ∃ r, loads l = .ok r) →
      ∃ rs, load_jsonl loads file = .ok rs ∧
        rs.length = (nonblankLines file).length ∧
        ∀ (i : ℕ) (hi : i < (nonblankLines file).length)
          (hr : i < rs.length),
          loads ((nonblankLines file).get ⟨i, hi⟩) = .ok (rs.get ⟨i, hr⟩)) ∧
    (∀ (i : ℕ) (hi : i < (nonblankLines file).length) (e : List Char),
      (∀ j (hj : j < i),
        ∃ r, loads ((nonblankLines file).get ⟨j, Nat.lt_trans hj hi⟩)
          = .ok r) →
      loads ((nonblankLines file).get ⟨i, hi⟩) = .error e →
      load_jsonl loads file = .error e) := by
  have hnb : ∀ l ∈ nonblankLines file, isBlankLine l = false := by
    intro l hl
    have := List.of_mem_filter hl
    simpa using this
  have heq : load_jsonl loads file = loadLines loads (nonblankLines file) := by
    unfold load_jsonl nonblankLines
    exact loadLines_filter_blank loads (pyLines file)
  constructor
  · intro hok
    rw [heq]
    exact loadLines_ok_pointwise loads _ hnb hok
  · intro i hi e hprev herr
    rw [heq]
    exact loadLines_error_at loads _ hnb i hi e hprev herr

/-- C9 witness: the file `"a\n\n"` — one parseable line, one blank line —
read with the concrete decoder `wloads`. -/
theorem load_jsonl_line_policy_witness :
    ∃ rs, load_jsonl wloads ['a', '\n', '\n'] = .ok rs ∧
      rs.length = (nonblankLines ['a', '\n', '\n']).length ∧
      ∀ (i : ℕ) (hi : i < (nonblankLines ['a', '\n', '\n']).length)
        (hr : i < rs.length),
        wloads ((nonblankLines ['a', '\n', '\n']).get ⟨i, hi⟩)
          = .ok (rs.get ⟨i, hr⟩) :=
  (load_jsonl_line_policy wloads ['a', '\n', '\n']).1 (by
    intro l hl
    have hset : nonblankLines ['a', '\n', '\n'] = [['a', '\n']] := by decide
    rw [hset] at hl
    rw [List.mem_singleton.mp hl]
    exact ⟨wrec1, rfl⟩)

end Monitor
